import Mathlib

/-!
Formal verification of core components of the pf_aspect picture-frame system.

The Python sources are embedded shallowly:
pure computations become Lean functions, SQLite tables become lists of rows,
`with connection:` transaction blocks become all-or-nothing state updates, and
exceptional control flow is modelled with `Option` / explicit outcome types.

Components covered:
* `create_new_slideshow.py` (Sequencer): `build_groups_dynamic`,
  `fetch_file_ids`, `generate_slideshow`.
* `async_timer.py` (PersistentScheduler): `register`, the `_run` tick loop,
  `_save_last_run` / `_load_last_run` persistence.
* `import_photos.py` (Ingestor): the `check_for_updates` in-progress guard and
  the `imported_playlists` operations that can touch `src_version`.
* `process_images.py` (Normalizer): the failure/cleanup control flow of
  `process_image`.
* `image_cache.py` (Catalog): `__insert_file` / `__insert_files_batch`
  insert-or-ignore behaviour, and `set_played_for_image` transactionality.
-/

namespace PFAspect

/-- Python `round` applied to the exact rational `rem / c` (for `c > 0`):
round-half-to-even ("banker's rounding"), as used by
`round(rem / (count - i))` in `split_ids`.  For the small integer inputs the
program produces, float division followed by `round` agrees with exact
rational rounding.  `c = 0` never occurs in the program (the divisor is
`count - i ≥ 1`). -/
def pyRoundDiv (rem : ℤ) (c : ℕ) : ℤ :=
  let q := Int.fdiv rem (c : ℤ)
  let r := rem - q * (c : ℤ)
  if 2 * r < (c : ℤ) then q
  else if (c : ℤ) < 2 * r then q + 1
  else if q % 2 = 0 then q else q + 1

/-- Python list slicing `xs[start:stop]` with the usual clamping and
negative-index handling. -/
def pySlice {α : Type} (xs : List α) (start stop : ℤ) : List α :=
  let n : ℤ := xs.length
  let s := if start < 0 then max 0 (n + start) else min start n
  let e := if stop < 0 then max 0 (n + stop) else min stop n
  (xs.drop s.toNat).take (e - s).toNat

/-- Python indexing `xs[i]` (negative indices count from the end; out of
range raises `IndexError`, modelled as `none`). -/
def pyIndex (xs : List ℤ) (i : ℤ) : Option ℤ :=
  let n : ℤ := xs.length
  let j := if i < 0 then n + i else i
  if 0 ≤ j ∧ j < n then xs.get? j.toNat else none

/-- `math.ceil(total / target)` for naturals with `target > 0`
(`num_groups` in `build_groups_dynamic`; `target = 0` raises in Python and
is handled separately by the caller model). -/
def numGroups (total target : ℕ) : ℕ := (total + target - 1) / target

/-! ## Sequencer: `create_new_slideshow.py` -/

/-- The inner recursion of `NewSlideshow.split_ids`: for each remaining group
the allocated size is `max(min_set_size, round(rem / (count - i)))` and `rem`
decreases by the allocated size (`rem` may go negative). -/
def splitIdsGo (minSet : ℤ) : ℤ → ℕ → List ℤ
  | _, 0 => []
  | rem, n + 1 =>
    let size := max minSet (pyRoundDiv rem (n + 1))
    size :: splitIdsGo minSet (rem - size) n

/-- `NewSlideshow.split_ids(ids, count)`: only `len(ids)` is consulted. -/
def split_ids (minSet : ℤ) (ids : List ℤ) (count : ℕ) : List ℤ :=
  splitIdsGo minSet (ids.length : ℤ) count

/-- The `for i in range(num_groups)` loop of `build_groups_dynamic`.
Arguments track the loop index `i`, the number of remaining iterations, the
two mutable size lists (popped from the front), and the two running slice
offsets.  `pop(0)` on an empty list raises `IndexError`, modelled as `none`. -/
def buildLoop (dT mT : String) (dIds mIds : List ℤ) :
    ℕ → ℕ → List ℤ → List ℤ → ℤ → ℤ → Option (List (String × List ℤ))
  | _, 0, _, _, _, _ => some []
  | i, n + 1, dSizes, mSizes, dIdx, mIdx =>
    if i % 2 = 0 ∨ mSizes = [] then
      match dSizes with
      | [] => none
      | s :: ds =>
        (buildLoop dT mT dIds mIds (i + 1) n ds mSizes (dIdx + s) mIdx).map
          (fun gs => (dT, pySlice dIds dIdx (dIdx + s)) :: gs)
    else
      match mSizes with
      | [] => none
      | s :: ms =>
        (buildLoop dT mT dIds mIds (i + 1) n dSizes ms dIdx (mIdx + s)).map
          (fun gs => (mT, pySlice mIds mIdx (mIdx + s)) :: gs)

/-- `portrait_ids`: files whose folder id is 2. -/
def portraitIds (ids : List ℤ) (folderMap : ℤ → ℤ) : List ℤ :=
  ids.filter (fun fid => folderMap fid = 2)

/-- `landscape_ids`: files whose folder id is 1. -/
def landscapeIds (ids : List ℤ) (folderMap : ℤ → ℤ) : List ℤ :=
  ids.filter (fun fid => folderMap fid = 1)

/-- `dominant_ids = portrait_ids if len(portrait_ids) >= len(landscape_ids)
else landscape_ids`. -/
def dominantIds (ids : List ℤ) (folderMap : ℤ → ℤ) : List ℤ :=
  if (landscapeIds ids folderMap).length ≤ (portraitIds ids folderMap).length
  then portraitIds ids folderMap else landscapeIds ids folderMap

/-- `minority_ids = landscape_ids if dominant_ids == portrait_ids else
portrait_ids` (Python compares the lists by value). -/
def minorityIds (ids : List ℤ) (folderMap : ℤ → ℤ) : List ℤ :=
  if dominantIds ids folderMap = portraitIds ids folderMap
  then landscapeIds ids folderMap else portraitIds ids folderMap

/-- `dominant_type = 'portrait' if dominant_ids == portrait_ids else
'landscape'`. -/
def dominantType (ids : List ℤ) (folderMap : ℤ → ℤ) : String :=
  if dominantIds ids folderMap = portraitIds ids folderMap
  then "portrait" else "landscape"

/-- `minority_type = 'landscape' if dominant_type == 'portrait' else
'portrait'`. -/
def minorityType (ids : List ℤ) (folderMap : ℤ → ℤ) : String :=
  if dominantType ids folderMap = "portrait" then "landscape" else "portrait"

/-- `minority_groups` after the minimum-size guard: initially
`num_groups // 2`; if `minority_groups * min_set_size > len(minority_ids)`
it is recomputed as `len(minority_ids) // min_set_size`. -/
def minorityGroups (targetSet minSet : ℕ) (ids : List ℤ) (folderMap : ℤ → ℤ) : ℕ :=
  let ng := numGroups ids.length targetSet
  let mg0 := ng / 2
  if (minorityIds ids folderMap).length < mg0 * minSet
  then (minorityIds ids folderMap).length / minSet else mg0

/-- `dominant_groups = num_groups - minority_groups` (never negative, so the
`ValueError` branch in the source is dead). -/
def dominantGroups (targetSet minSet : ℕ) (ids : List ℤ) (folderMap : ℤ → ℤ) : ℕ :=
  numGroups ids.length targetSet - minorityGroups targetSet minSet ids folderMap

/-- `NewSlideshow.build_groups_dynamic(file_id_list, folder_map)`.
`none` models an exception escaping the method (`ZeroDivisionError` when
`target_set_size` is 0, or `IndexError` from `pop(0)`). -/
def build_groups_dynamic (targetSet minSet : ℕ) (ids : List ℤ)
    (folderMap : ℤ → ℤ) : Option (List (String × List ℤ)) :=
  if targetSet = 0 then none
  else
    buildLoop (dominantType ids folderMap) (minorityType ids folderMap)
      (dominantIds ids folderMap) (minorityIds ids folderMap)
      0 (numGroups ids.length targetSet)
      (split_ids (minSet : ℤ) (dominantIds ids folderMap)
        (dominantGroups targetSet minSet ids folderMap))
      (split_ids (minSet : ℤ) (minorityIds ids folderMap)
        (minorityGroups targetSet minSet ids folderMap))
      0 0

/-- `NewSlideshow.fetch_file_ids`: rows are `(file_id, folder_id)` pairs.
A database error is caught and yields `[]`; an empty table yields the `None`
sentinel (`Option.none` here); otherwise the rows are returned. -/
def fetch_file_ids (rows : List (ℤ × ℤ)) (dbError : Bool) :
    Option (List (ℤ × ℤ)) :=
  if dbError then some [] else if rows = [] then none else some rows

/-- The dict comprehension `{row['file_id']: row['folder_id'] for row in
file_data}`: on duplicate keys the last row wins; lookups in
`build_groups_dynamic` only ever use keys present in the dict, so the
default value 0 is unreachable there. -/
def folderMapOf (rows : List (ℤ × ℤ)) : ℤ → ℤ :=
  fun fid => ((rows.reverse.find? (fun r => r.1 = fid)).map (fun r => r.2)).getD 0

/-- Outcome of a Python call: it either raises an exception or returns a
value (`Option ℕ`: `none` is Python `None`, `some k` a group count). -/
inductive PyRet where
  | exn : PyRet
  | val : Option ℕ → PyRet
deriving DecidableEq

/-- `NewSlideshow.generate_slideshow()`.  `positions` is the (possibly
service-provided, possibly local-fallback) shuffle sequence consumed as
`file_ids[i - 1]` when shuffling is on.  `save_to_slideshow` catches all of
its own exceptions and the method body ends without a `return` statement,
so every non-exceptional path falls off the end and returns `None`. -/
def generate_slideshow (rows : List (ℤ × ℤ)) (dbError shuffle : Bool)
    (positions : List ℤ) (targetSet minSet : ℕ) : PyRet :=
  match fetch_file_ids rows dbError with
  | none => PyRet.val none
  | some fileData =>
    if fileData = [] then PyRet.val none
    else
      let file_ids := fileData.map (fun r => r.1)
      let fm := folderMapOf fileData
      let shuffled : Option (List ℤ) :=
        if shuffle then positions.mapM (fun i => pyIndex file_ids (i - 1))
        else some file_ids
      match shuffled with
      | none => PyRet.exn
      | some fids =>
        match build_groups_dynamic targetSet minSet fids fm with
        | none => PyRet.exn
        | some _ => PyRet.val none

/-! ## PersistentScheduler: `async_timer.py` -/

/-- One entry of `AsyncTimerManager._tasks` (the callback itself is not
modelled; `_run_task` only awaits it). -/
structure TTask where
  name : String
  interval : ℤ
  last_run : ℤ
deriving DecidableEq

/-- The persisted `timer_state` table: `name` is the primary key. -/
abbrev TimerStore : Type := List (String × ℤ)

/-- `_load_last_run(name)`: the persisted value, if any. -/
def load_last_run (store : TimerStore) (name : String) : Option ℤ :=
  (store.find? (fun e => e.1 = name)).map (fun e => e.2)

/-- `_save_last_run(name, timestamp)`: INSERT ... ON CONFLICT(name) DO
UPDATE. -/
def save_last_run (store : TimerStore) (name : String) (timestamp : ℤ) :
    TimerStore :=
  if (store.find? (fun e => e.1 = name)).isSome then
    store.map (fun e => if e.1 = name then (name, timestamp) else e)
  else store ++ [(name, timestamp)]

/-- `AsyncTimerManager.register(callback, interval, name)` after the
coroutine-function type check has passed: loads any persisted `last_run`
(`loadOk = false` models the swallowed DB read error, which behaves like a
missing row), defaults to `now - interval` ("run immediately"), and appends
the task.  There is no duplicate-name check. -/
def register (tasks : List TTask) (store : TimerStore) (loadOk : Bool)
    (interval : ℤ) (name : String) (now : ℤ) : List TTask :=
  let loaded := if loadOk then load_last_run store name else none
  let lr := loaded.getD (now - interval)
  tasks ++ [⟨name, interval, lr⟩]

/-- `register` including the `TypeError` raised when the callback is not an
async function (`isCoroutine = false`). -/
def registerChecked (isCoroutine : Bool) (tasks : List TTask)
    (store : TimerStore) (loadOk : Bool) (interval : ℤ) (name : String)
    (now : ℤ) : Except String (List TTask) :=
  if isCoroutine then Except.ok (register tasks store loadOk interval name now)
  else Except.error "Callback must be an async function"

/-- Observable events of one tick of `_run`, in program order. -/
inductive TEvent where
  | persist : String → ℤ → TEvent
  | launch : String → TEvent
deriving DecidableEq

/-- The per-task body of one tick of `_run`: a task is due when
`now - last_run ≥ interval`; a due task gets `last_run := now` in memory,
`_save_last_run(name, now)` is called, and its coroutine is collected for
launching after the loop.  The accumulator carries the updated task list,
the persisted store, the emitted events and the names of due tasks. -/
def tickStep (now : ℤ)
    (acc : List TTask × TimerStore × List TEvent × List String)
    (t : TTask) : List TTask × TimerStore × List TEvent × List String :=
  if t.interval ≤ now - t.last_run then
    (acc.1 ++ [⟨t.name, t.interval, now⟩],
     save_last_run acc.2.1 t.name now,
     acc.2.2.1 ++ [TEvent.persist t.name now],
     acc.2.2.2 ++ [t.name])
  else (acc.1 ++ [t], acc.2.1, acc.2.2.1, acc.2.2.2)

/-- The task loop of one tick of `_run`. -/
def tickFold (tasks : List TTask) (store : TimerStore) (now : ℤ) :
    List TTask × TimerStore × List TEvent × List String :=
  tasks.foldl (tickStep now) ([], store, [], [])

/-- The full event trace of one tick: the persist events happen inside the
task loop, and only after the loop does `_run` start the collected
coroutines with `asyncio.create_task`. -/
def tickEvents (tasks : List TTask) (store : TimerStore) (now : ℤ) :
    List TEvent :=
  (tickFold tasks store now).2.2.1 ++
    (tickFold tasks store now).2.2.2.map TEvent.launch

/-! ## Ingestor: `import_photos.py` -/

/-- The state touched by the re-entrancy guard of
`ImportPhotos.check_for_updates`.  `cyclesStarted` counts how many times
the method has entered the body of an import cycle. -/
structure IngestorState where
  importing : Bool
  stopRequested : Bool
  cyclesStarted : ℕ
deriving DecidableEq

/-- `ImportPhotos.check_for_updates()`: returns immediately when
`_importing` is set or a stop was requested; otherwise sets `_importing`
and runs a cycle.  The `finally` block of the source is `pass` — the code
that reset `_importing = False` is commented out, and nothing else in the
class ever resets it. -/
def check_for_updates (s : IngestorState) : IngestorState :=
  if s.importing then s
  else if s.stopRequested then s
  else { s with importing := true, cyclesStarted := s.cyclesStarted + 1 }

/-- One `imported_playlists` row (keyed externally by
`(source, playlist_id)`).  `src_version` is nullable. -/
structure PlRec where
  playlist_name : String
  picture_count : ℤ
  last_modified : String
  last_imported : String
  src_version : Option ℤ
deriving DecidableEq

/-- The `imported_playlists` table. -/
abbrev PlStore : Type := List ((String × ℤ) × PlRec)

/-- Row lookup by the unique key `(source, playlist_id)` (first match, as
for a `SELECT ... WHERE source = ? AND playlist_id = ?`). -/
def plLookup : PlStore → (String × ℤ) → Option PlRec
  | [], _ => none
  | e :: rest, k => if e.1 = k then some e.2 else plLookup rest k

/-- The stored `src_version` for a key (`none` when the row is missing or
the column is NULL, exactly what `get_src_version` reports). -/
def plSrcVersion (st : PlStore) (k : String × ℤ) : Option ℤ :=
  (plLookup st k).bind (fun r => r.src_version)

/-- Update the row at key `k` in place, if present. -/
def plMapAt (st : PlStore) (k : String × ℤ) (g : PlRec → PlRec) : PlStore :=
  st.map (fun e => if e.1 = k then (e.1, g e.2) else e)

/-- The `INSERT ... ON CONFLICT(source, playlist_id) DO UPDATE SET
playlist_name = ..., last_modified = ...` of `update_imported_playlists_db`.
The insert's column list omits `src_version`, so a fresh row gets the
column default NULL; the conflict branch only rewrites `playlist_name` and
`last_modified`.  `last_imported` is inserted as the literal 0. -/
def upsertPlaylist (st : PlStore) (source : String) (pid : ℤ) (name : String)
    (count : ℤ) (lm : String) : PlStore :=
  if (plLookup st (source, pid)).isSome then
    plMapAt st (source, pid)
      (fun r => { r with playlist_name := name, last_modified := lm })
  else st ++ [((source, pid), ⟨name, count, lm, "0", none⟩)]

/-- Stale-playlist handling (`_delete_stale_files_from_db`): the
`imported_playlists` row is deleted outright. -/
def deleteStalePlaylist (st : PlStore) (source : String) (pid : ℤ) : PlStore :=
  st.filter (fun e => ¬ e.1 = (source, pid))

/-- The `src_version` write in `get_single_playlist_media`: the stored value
is read first and `UPDATE imported_playlists SET src_version = ?` runs only
under `if src_version == None` (a missing row makes the UPDATE match no
row, which `plMapAt` reproduces). -/
def updateSrcVersionIfMissing (st : PlStore) (source : String) (pid : ℤ)
    (v : ℤ) : PlStore :=
  if plSrcVersion st (source, pid) = none then
    plMapAt st (source, pid) (fun r => { r with src_version := some v })
  else st

/-- `_update_single_source_timestamps`: `UPDATE imported_playlists SET
last_imported = ?` for one key. -/
def touchLastImported (st : PlStore) (source : String) (pid : ℤ) (t : String) :
    PlStore :=
  plMapAt st (source, pid) (fun r => { r with last_imported := t })

/-- The Ingestor operations that write to `imported_playlists`. -/
inductive IngestOp where
  | upsert : String → ℤ → String → ℤ → String → IngestOp
  | deleteStale : String → ℤ → IngestOp
  | setVersionIfMissing : String → ℤ → ℤ → IngestOp
  | touchImported : String → ℤ → String → IngestOp

/-- Apply one Ingestor operation to the table. -/
def applyIngestOp (st : PlStore) : IngestOp → PlStore
  | IngestOp.upsert source pid name count lm => upsertPlaylist st source pid name count lm
  | IngestOp.deleteStale source pid => deleteStalePlaylist st source pid
  | IngestOp.setVersionIfMissing source pid v => updateSrcVersionIfMissing st source pid v
  | IngestOp.touchImported source pid t => touchLastImported st source pid t

/-- Apply a sequence of Ingestor operations, left to right. -/
def applyIngestOps (ops : List IngestOp) (st : PlStore) : PlStore :=
  ops.foldl applyIngestOp st

/-- All intermediate tables along a sequence of operations (initial table
included). -/
def ingestStates (ops : List IngestOp) (st : PlStore) : List PlStore :=
  match ops with
  | [] => [st]
  | op :: rest => st :: ingestStates rest (applyIngestOp st op)

/-! ## Normalizer: `process_images.py` -/

/-- The externally observable state `ProcessImages.process_image` acts on
for one file: whether the source file still sits in the import directory,
whether the Catalog has the resulting File row, and whether the scaled
output file has been written to the per-category directory. -/
structure NormWorld where
  sourceExists : Bool
  catalogHasFile : Bool
  outputWritten : Bool
deriving DecidableEq

/-- Which of the fallible steps of `process_image` fail on this run. -/
structure NormOracle where
  loadFails : Bool
  classifyFails : Bool
  cropFails : Bool
  saveFails : Bool
  storeFails : Bool
  deleteFails : Bool
deriving DecidableEq

/-- `ProcessImages.process_image(file_path)` control flow:

* `pyvips.Image.new_from_file` raising is caught by the outer handler —
  nothing happens;
* `classify_and_scale` returning `None` ends processing (`return`);
* `smart_crop` returning `None` ends processing (`return`);
* a save failure is logged and re-`raise`d, caught by the outer handler —
  the source is not deleted;
* the Catalog write (`add_to_db` inside `with self.__db:`) has its own
  `except` clause: a failure is logged and execution continues;
* the deletion block then runs unconditionally: if the source file still
  exists it is unlinked (a deletion error is caught and logged). -/
def process_image (o : NormOracle) (w : NormWorld) : NormWorld :=
  if o.loadFails then w
  else if o.classifyFails then w
  else if o.cropFails then w
  else if o.saveFails then w
  else
    let w1 := { w with outputWritten := true }
    let w2 := if o.storeFails then w1 else { w1 with catalogHasFile := true }
    if w2.sourceExists ∧ ¬ o.deleteFails then { w2 with sourceExists := false }
    else w2

/-! ## Catalog: `image_cache.py` -/

/-- One row of the `file` table (the columns relevant to identity and
insertion). -/
structure FileRow where
  folder : String
  source : Option String
  playlist : Option String
  basename : String
  extension : String
  width : Option ℤ
  height : Option ℤ
  creation_time : ℤ
deriving DecidableEq

/-- The tables touched by `__insert_file` / `__insert_files_batch`.
`metas` is keyed by full file name (the `all_data.fname` used by the meta
upsert). -/
structure CatalogState where
  folders : List String
  files : List FileRow
  metas : List (String × List (String × String))
deriving DecidableEq

/-- Does a row with this `(folder, basename, extension)` triple exist? -/
def hasFileKey (files : List FileRow) (folder base ext : String) : Bool :=
  files.any (fun r => r.folder = folder ∧ r.basename = base ∧ r.extension = ext)

/-- `INSERT OR IGNORE INTO folder(name) VALUES(?)`. -/
def insertFolderIgnore (folders : List String) (dir : String) : List String :=
  if dir ∈ folders then folders else folders ++ [dir]

/-- Modelled from the spec: the `file` table's schema lives in
`schema.py`, which is not among the sources; spec §3 states a File is
"Unique per (folder, basename, extension)".  `INSERT OR IGNORE INTO
file(...)` therefore inserts the row when no row with that triple exists
and silently does nothing otherwise. -/
def insertFileIgnore (files : List FileRow) (row : FileRow) : List FileRow :=
  if hasFileKey files row.folder row.basename row.extension then files
  else files ++ [row]

/-- `INSERT OR REPLACE INTO meta(...)` keyed by `fname`. -/
def upsertMeta (metas : List (String × List (String × String)))
    (fname : String) (meta : List (String × String)) :
    List (String × List (String × String)) :=
  if (metas.find? (fun e => e.1 = fname)).isSome then
    metas.map (fun e => if e.1 = fname then (fname, meta) else e)
  else metas ++ [(fname, meta)]

/-- `ImageCache.__insert_file(file, file_id, source, playlist)`: one
transaction inserting the folder (or ignore), then — only when `file_id`
is `None` — the file row (or ignore), then the meta row (or replace). -/
def insert_file (st : CatalogState) (row : FileRow) (fileId : Option ℤ)
    (fname : String) (meta : List (String × String)) : CatalogState :=
  let st1 := { st with folders := insertFolderIgnore st.folders row.folder }
  let st2 :=
    match fileId with
    | none => { st1 with files := insertFileIgnore st1.files row }
    | some _ => st1
  { st2 with metas := upsertMeta st2.metas fname meta }

/-- `ImageCache.__insert_files_batch(files)` (success path): one
transaction doing the batch of folder upserts via `executemany`, then the
batch of `INSERT OR IGNORE` file inserts via `executemany` (SQLite runs
the statement once per tuple, in order).  Metadata is inserted by the
no-op helper `__insert_metadata`, so `metas` is untouched.  On failure the
source falls back to per-file `__insert_file` calls with the same
insert-or-ignore semantics. -/
def insert_files_batch (st : CatalogState) (rows : List FileRow) :
    CatalogState :=
  let folders1 := rows.foldl (fun fs r => insertFolderIgnore fs r.folder) st.folders
  let files1 := rows.foldl insertFileIgnore st.files
  { st with folders := folders1, files := files1 }

/-- Number of `file` rows carrying a given `(folder, basename, extension)`
triple. -/
def countFileKey (files : List FileRow) (folder base ext : String) : ℕ :=
  (files.filter
    (fun r => r.folder = folder ∧ r.basename = base ∧ r.extension = ext)).length

/-- One row of the `slideshow` table (the columns `set_played_for_image`
touches). -/
structure SlideEntry where
  file_id : ℤ
  played : ℤ
deriving DecidableEq

/-- One row of the `file` table as seen by `set_played_for_image`. -/
structure FileCounter where
  file_id : ℤ
  displayed_count : ℤ
  last_displayed : Option ℤ
deriving DecidableEq

/-- The two tables `set_played_for_image` updates. -/
structure CacheState where
  slideshow : List SlideEntry
  files : List FileCounter
deriving DecidableEq

/-- `UPDATE slideshow SET played = 1 WHERE file_id = ?`. -/
def markPlayedStmt (fid : ℤ) (st : CacheState) : CacheState :=
  { st with
    slideshow := st.slideshow.map
      (fun e => if e.file_id = fid then { e with played := 1 } else e) }

/-- `UPDATE file SET displayed_count = displayed_count + 1,
last_displayed = ? WHERE file_id = ?`. -/
def incDisplayedStmt (fid : ℤ) (now : ℤ) (st : CacheState) : CacheState :=
  { st with
    files := st.files.map
      (fun f =>
        if f.file_id = fid then
          { f with displayed_count := f.displayed_count + 1,
                   last_displayed := some now }
        else f) }

/-- `with self.__db:` semantics: the statements run in order inside one
transaction; if any statement raises, the transaction rolls back and the
original state is kept (the surrounding `except` swallows the error). -/
def runTransaction (stmts : List (CacheState → Option CacheState))
    (st : CacheState) : CacheState :=
  match stmts.foldlM (fun s stmt => stmt s) st with
  | some s => s
  | none => st

/-- `ImageCache.set_played_for_image(file_id)`: both UPDATEs inside a
single `with self.__db:` block.  `fail1` / `fail2` say whether the
respective statement raises a database error on this run. -/
def set_played_for_image (fail1 fail2 : Bool) (fid : ℤ) (now : ℤ)
    (st : CacheState) : CacheState :=
  runTransaction
    [fun s => if fail1 then none else some (markPlayedStmt fid s),
     fun s => if fail2 then none else some (incDisplayedStmt fid now s)]
    st

/-! ## Theorems -/

/-- C1: On a run where the image loads, classifies, crops and saves
successfully but the Catalog store write fails, `process_image`
nevertheless deletes the source file from the import directory: the final
world has no Catalog row for the file and the source gone, so the file is
not available for a later retry.  This contradicts the claim (and the
source's own comment "Delete original file after successful database
addition"): the store-write `except` clause only logs and execution falls
through to the deletion block. -/
theorem process_image_store_failure_still_deletes_source :
    (process_image ⟨false, false, false, false, true, false⟩
        ⟨true, false, false⟩).sourceExists = false ∧
    (process_image ⟨false, false, false, false, true, false⟩
        ⟨true, false, false⟩).catalogHasFile = false := by
  decide

/-- C3: `check_for_updates` sets the `_importing` guard and never clears it
(the `finally` block is `pass`; the reset is commented out).  Starting from
a fresh Ingestor, the first call runs a cycle and leaves `importing = true`;
a second call — even after the first cycle has completed — is a no-op, so
repeated invocation is permanently skipped rather than starting a new
cycle. -/
theorem check_for_updates_guard_never_released :
    check_for_updates ⟨false, false, 0⟩ =
      (⟨true, false, 1⟩ : IngestorState) ∧
    check_for_updates (check_for_updates ⟨false, false, 0⟩) =
      (⟨true, false, 1⟩ : IngestorState) := by
  decide

/-- C9: `set_played_for_image` runs both UPDATEs inside one `with self.__db:`
transaction, so its outcome is exhaustively characterised: if either
statement fails the state is completely unchanged, and otherwise both the
`played` flag and the display counter updates are applied.  No reachable
outcome applies exactly one of the two updates. -/
theorem set_played_for_image_atomic (fail1 fail2 : Bool) (fid : ℤ) (now : ℤ)
    (st : CacheState) :
    set_played_for_image fail1 fail2 fid now st =
      if fail1 || fail2 then st
      else incDisplayedStmt fid now (markPlayedStmt fid st) := by
  cases fail1 <;> cases fail2 <;> rfl

/-- C4 counterexample: a catalog with two files (one landscape, one
portrait) builds one group successfully, yet `generate_slideshow` returns
`None` rather than the group count 1 — the method logs the count but has no
`return` statement on the success path. -/
theorem generate_slideshow_cex :
    generate_slideshow [(1, 1), (2, 2)] false false [] 10 3 = PyRet.val none ∧
    build_groups_dynamic 10 3 [1, 2] (folderMapOf [(1, 1), (2, 2)]) =
      some [("portrait", [2])] ∧
    PyRet.val none ≠ PyRet.val (some 1) := by
  decide

/-- C4 (amended): `generate_slideshow` never returns a group count.  Every
non-exceptional path — zero files in the catalog, a database read error,
or a fully successful generation — returns the `None` sentinel; the only
other possibility is an exception escaping the method. -/
theorem generate_slideshow_never_returns_count (rows : List (ℤ × ℤ))
    (dbError shuffle : Bool) (positions : List ℤ) (targetSet minSet : ℕ) :
    generate_slideshow rows dbError shuffle positions targetSet minSet =
        PyRet.exn ∨
    generate_slideshow rows dbError shuffle positions targetSet minSet =
        PyRet.val none := by
  unfold generate_slideshow
  split
  · exact Or.inr rfl
  · split
    · exact Or.inr rfl
    · dsimp only
      split
      · exact Or.inl rfl
      · split
        · exact Or.inl rfl
        · exact Or.inr rfl

/-- C6 counterexample: registering the name "import" twice on a fresh
scheduler succeeds both times (no duplicate-name rejection exists in
`register`) and leaves two task entries with that name. -/
theorem register_duplicate_cex :
    registerChecked true (register [] [] true 10 "import" 0) [] true 10
        "import" 0 =
      Except.ok (register (register [] [] true 10 "import" 0) [] true 10
        "import" 0) ∧
    ((register (register [] [] true 10 "import" 0) [] true 10 "import"
        0).filter (fun t => t.name = "import")).length = 2 := by
  exact ⟨rfl, by decide⟩

/-- C6 (amended): `register` performs no duplicate-name check.  For every
scheduler state already containing a task named `name`, a second
registration under that name succeeds (no error is raised for a valid
async callback) and appends a second task entry, so at least two entries
with that name exist afterwards; name uniqueness is the caller's
responsibility. -/
theorem register_appends_duplicate_names (tasks : List TTask)
    (store : TimerStore) (loadOk : Bool) (interval : ℤ) (name : String)
    (now : ℤ) (h : ∃ t ∈ tasks, t.name = name) :
    registerChecked true tasks store loadOk interval name now =
      Except.ok (register tasks store loadOk interval name now) ∧
    2 ≤ ((register tasks store loadOk interval name now).filter
      (fun t => t.name = name)).length := by
  refine ⟨rfl, ?_⟩
  obtain ⟨t, ht, hname⟩ := h
  have hmem : t ∈ tasks.filter (fun t => t.name = name) :=
    List.mem_filter.mpr ⟨ht, by simp [hname]⟩
  have h1 : 1 ≤ (tasks.filter (fun t => t.name = name)).length :=
    List.length_pos_of_mem hmem
  have h2 : register tasks store loadOk interval name now =
      tasks ++ [⟨name, interval,
        ((if loadOk then load_last_run store name else none).getD
          (now - interval))⟩] := rfl
  rw [h2, List.filter_append]
  simp only [List.length_append]
  have h3 : (List.filter (fun t => t.name = name)
      [(⟨name, interval,
        ((if loadOk then load_last_run store name else none).getD
          (now - interval))⟩ : TTask)]).length = 1 := by simp
  omega

/-- C6 witness: instantiating the duplicate-registration theorem at a
concrete scheduler already holding a task named "import". -/
theorem register_appends_duplicate_names_witness :
    (∃ t ∈ [(⟨"import", 10, 0⟩ : TTask)], t.name = "import") ∧
    2 ≤ ((register [(⟨"import", 10, 0⟩ : TTask)] [] true 10 "import"
      0).filter (fun t => t.name = "import")).length :=
  ⟨⟨⟨"import", 10, 0⟩, by simp⟩,
   (register_appends_duplicate_names [⟨"import", 10, 0⟩] [] true 10 "import"
     0 ⟨⟨"import", 10, 0⟩, by simp⟩).2⟩

/-- Helper: along the tick loop, the emitted persist events are exactly the
due names, in order, each stamped with the tick time. -/
theorem tickFold_go_events (now : ℤ) :
    ∀ (tasks : List TTask)
      (acc : List TTask × TimerStore × List TEvent × List String),
      acc.2.2.1 = acc.2.2.2.map (fun m => TEvent.persist m now) →
      (tasks.foldl (tickStep now) acc).2.2.1 =
        ((tasks.foldl (tickStep now) acc).2.2.2).map
          (fun m => TEvent.persist m now)
  | [], _, h => h
  | t :: ts, acc, h => by
    rw [List.foldl_cons]
    apply tickFold_go_events now ts
    unfold tickStep
    split
    · simp [h]
    · simpa using h

/-- Helper: the persist block of a tick's event trace. -/
theorem tickFold_events (tasks : List TTask) (store : TimerStore) (now : ℤ) :
    (tickFold tasks store now).2.2.1 =
      ((tickFold tasks store now).2.2.2).map (fun m => TEvent.persist m now) :=
  tickFold_go_events now tasks ([], store, [], []) rfl

/-- C2: (a) in the event trace of one scheduler tick, every job launch is
preceded by a persist of that job's `last_run` at the tick time — `_run`
writes and persists `last_run` inside the task loop and only starts the
collected coroutines after the loop; and (b) restart safety: after a
restart, `register` reloads the persisted `last_run` `t`, and a tick at
time `now` launches that job only when `t + interval ≤ now`, so no job
fires earlier than `interval` seconds after its last persisted run. -/
theorem scheduler_persist_before_launch_and_restart_safe :
    (∀ (tasks : List TTask) (store : TimerStore) (now : ℤ) (i : ℕ)
        (n : String),
      (tickEvents tasks store now)[i]? = some (TEvent.launch n) →
      ∃ j, j < i ∧
        (tickEvents tasks store now)[j]? = some (TEvent.persist n now)) ∧
    (∀ (store : TimerStore) (t interval now0 now : ℤ) (name : String),
      load_last_run store name = some t →
      TEvent.launch name ∈
        tickEvents (register [] store true interval name now0) store now →
      t + interval ≤ now) := by
  constructor
  · intro tasks store now i n hi
    have hP := tickFold_events tasks store now
    by_cases hlt : i < (tickFold tasks store now).2.2.1.length
    · exfalso
      rw [tickEvents, List.getElem?_append_left hlt, hP, List.getElem?_map] at hi
      rcases hD : ((tickFold tasks store now).2.2.2)[i]? with _ | m <;>
        simp [hD] at hi
    · push_neg at hlt
      rw [tickEvents, List.getElem?_append_right hlt, List.getElem?_map] at hi
      rcases hD : ((tickFold tasks store now).2.2.2)[i -
          (tickFold tasks store now).2.2.1.length]? with _ | m
      · simp [hD] at hi
      · rw [hD] at hi
        simp only [Option.map_some', Option.some.injEq,
          TEvent.launch.injEq] at hi
        subst hi
        have hlen : (tickFold tasks store now).2.2.1.length =
            (tickFold tasks store now).2.2.2.length := by
          rw [hP, List.length_map]
        have hjlt : i - (tickFold tasks store now).2.2.1.length <
            (tickFold tasks store now).2.2.2.length := by
          by_contra hge
          push_neg at hge
          rw [List.getElem?_eq_none hge] at hD
          exact Option.noConfusion hD
        refine ⟨i - (tickFold tasks store now).2.2.1.length, by omega, ?_⟩
        rw [tickEvents, List.getElem?_append_left (by omega), hP,
          List.getElem?_map, List.length_map, ← hlen, hD]
        rfl
  · intro store t interval now0 now name hload hmem
    have hreg : register [] store true interval name now0 =
        [⟨name, interval, t⟩] := by
      simp [register, hload]
    rw [hreg] at hmem
    by_cases hdue : interval ≤ now - t
    · linarith
    · exfalso
      simp [tickEvents, tickFold, tickStep, hdue] at hmem

/-- C2 witness: a job named "import" with persisted `last_run = 100` and
interval 50, re-registered after a restart, launches during a tick at time
150; the launch sits after its persist event in the trace, and
`100 + 50 ≤ 150`. -/
theorem scheduler_persist_before_launch_witness :
    load_last_run [("import", (100 : ℤ))] "import" = some 100 ∧
    (tickEvents (register [] [("import", (100 : ℤ))] true 50 "import" 0)
        [("import", (100 : ℤ))] 150)[1]? = some (TEvent.launch "import") ∧
    (∃ j, j < 1 ∧
      (tickEvents (register [] [("import", (100 : ℤ))] true 50 "import" 0)
        [("import", (100 : ℤ))] 150)[j]? =
          some (TEvent.persist "import" 150)) ∧
    TEvent.launch "import" ∈
      tickEvents (register [] [("import", (100 : ℤ))] true 50 "import" 0)
        [("import", (100 : ℤ))] 150 ∧
    (100 : ℤ) + 50 ≤ 150 := by
  refine ⟨by decide, by decide, ?_, by decide, ?_⟩
  · exact scheduler_persist_before_launch_and_restart_safe.1 _ _ _ 1 "import"
      (by decide)
  · exact scheduler_persist_before_launch_and_restart_safe.2
      [("import", (100 : ℤ))] 100 50 0 150 "import" (by decide) (by decide)

/-- Helper: `plMapAt` only changes the row at its key, and there it applies
`g` to whatever was stored. -/
theorem plLookup_plMapAt :
    ∀ (st : PlStore) (k j : String × ℤ) (g : PlRec → PlRec),
      plLookup (plMapAt st k g) j =
        if j = k then (plLookup st j).map g else plLookup st j
  | [], k, j, g => by simp [plLookup, plMapAt]
  | e :: rest, k, j, g => by
    have ih := plLookup_plMapAt rest k j g
    simp only [plMapAt, List.map_cons, plLookup]
    by_cases hek : e.1 = k
    · rw [if_pos hek]
      dsimp only
      by_cases hej : e.1 = j
      · have hjk : j = k := by rw [← hej, hek]
        rw [if_pos hej, if_pos hjk, if_pos hej]
        rfl
      · have hjk : ¬ j = k := fun h => hej (by rw [hek, h])
        rw [if_neg hej, if_neg hjk, if_neg hej]
        simpa [plMapAt, hjk] using ih
    · rw [if_neg hek]
      by_cases hej : e.1 = j
      · rw [if_pos hej]
        by_cases hjk : j = k
        · exact absurd (hjk ▸ hej) hek
        · rw [if_neg hjk, if_pos hej]
      · rw [if_neg hej]
        by_cases hjk : j = k
        · rw [if_pos hjk, if_neg hej]
          simpa [plMapAt, hjk] using ih
        · rw [if_neg hjk, if_neg hej]
          simpa [plMapAt, hjk] using ih

/-- Helper: a lookup that already succeeds is unaffected by rows appended
at the end of the table. -/
theorem plLookup_append_of_some :
    ∀ (st : PlStore) (l2 : PlStore) (j : String × ℤ) (r : PlRec),
      plLookup st j = some r → plLookup (st ++ l2) j = some r
  | [], _, _, _, h => by simp [plLookup] at h
  | e :: rest, l2, j, r, h => by
    by_cases hej : e.1 = j
    · simp [plLookup, hej] at h ⊢
      exact h
    · simp [plLookup, hej] at h ⊢
      exact plLookup_append_of_some rest l2 j r h

/-- Helper: deleting the rows of one key removes that key. -/
theorem plLookup_deleteStale_self :
    ∀ (st : PlStore) (source : String) (pid : ℤ),
      plLookup (deleteStalePlaylist st source pid) (source, pid) = none
  | [], _, _ => rfl
  | e :: rest, source, pid => by
    have ih := plLookup_deleteStale_self rest source pid
    simp only [deleteStalePlaylist] at ih ⊢
    rw [List.filter_cons]
    by_cases he : e.1 = (source, pid)
    · simp [he]
      simpa using ih
    · simp [he, plLookup]
      simpa using ih

/-- Helper: deleting the rows of one key leaves every other key's lookup
unchanged. -/
theorem plLookup_deleteStale_other :
    ∀ (st : PlStore) (source : String) (pid : ℤ) (j : String × ℤ),
      ¬ j = (source, pid) →
      plLookup (deleteStalePlaylist st source pid) j = plLookup st j
  | [], _, _, _, _ => rfl
  | e :: rest, source, pid, j, hj => by
    have ih := plLookup_deleteStale_other rest source pid j hj
    have hj2 : ¬ ((source, pid) : String × ℤ) = j := fun hh => hj hh.symm
    simp only [deleteStalePlaylist] at ih ⊢
    rw [List.filter_cons]
    by_cases he : e.1 = (source, pid)
    · have hej : ¬ e.1 = j := by
        intro hh; exact hj (by rw [← hh, he])
      simp [he, plLookup, hej, hj2]
      simpa using ih
    · by_cases hej : e.1 = j
      · simp [he, plLookup, hej, hj]
      · simp [he, plLookup, hej]
        simpa using ih

/-- Helper: a single Ingestor operation never changes a non-NULL stored
`src_version`: either the row is gone afterwards (stale-playlist deletion)
or the stored version is exactly what it was. -/
theorem applyIngestOp_src_version (op : IngestOp) (st : PlStore)
    (k : String × ℤ) (v : ℤ) (h : plSrcVersion st k = some v) :
    plLookup (applyIngestOp st op) k = none ∨
      plSrcVersion (applyIngestOp st op) k = some v := by
  have hrow : ∃ r, plLookup st k = some r ∧ r.src_version = some v := by
    unfold plSrcVersion at h
    rcases hr : plLookup st k with _ | r
    · rw [hr] at h; exact absurd h (by simp)
    · rw [hr] at h; exact ⟨r, rfl, h⟩
  obtain ⟨r, hr, hrv⟩ := hrow
  cases op with
  | upsert source pid name count lm =>
    right
    simp only [applyIngestOp, upsertPlaylist]
    by_cases hex : (plLookup st (source, pid)).isSome
    · rw [if_pos hex]
      simp only [plSrcVersion, plLookup_plMapAt]
      by_cases hk : k = (source, pid)
      · rw [if_pos hk, hr]
        simpa using hrv
      · rw [if_neg hk, hr]
        simpa using hrv
    · rw [if_neg hex]
      simp only [plSrcVersion]
      rw [plLookup_append_of_some st _ k r hr]
      simpa using hrv
  | deleteStale source pid =>
    by_cases hk : k = (source, pid)
    · left
      subst hk
      simp only [applyIngestOp]
      exact plLookup_deleteStale_self st source pid
    · right
      simp only [applyIngestOp, plSrcVersion]
      rw [plLookup_deleteStale_other st source pid k hk, hr]
      simpa using hrv
  | setVersionIfMissing source pid v2 =>
    right
    simp only [applyIngestOp, updateSrcVersionIfMissing]
    by_cases hmiss : plSrcVersion st (source, pid) = none
    · rw [if_pos hmiss]
      by_cases hk : k = (source, pid)
      · subst hk
        rw [h] at hmiss
        exact absurd hmiss (by simp)
      · simp only [plSrcVersion, plLookup_plMapAt]
        rw [if_neg hk, hr]
        simpa using hrv
    · rw [if_neg hmiss]
      exact h
  | touchImported source pid t =>
    right
    simp only [applyIngestOp, touchLastImported, plSrcVersion,
      plLookup_plMapAt]
    by_cases hk : k = (source, pid)
    · rw [if_pos hk, hr]
      simpa using hrv
    · rw [if_neg hk, hr]
      simpa using hrv

/-- C7: along any sequence of Ingestor operations on `imported_playlists`
(playlist upsert, stale-playlist deletion, the missing-`src_version`
update, and `last_imported` touches), a row of key `(source, playlist_id)`
that exists at every intermediate state keeps its non-NULL `src_version`
unchanged — no operation ever overwrites a stored `src_version`, in
particular never with a smaller value, so the version only advances
(NULL → value) and never regresses. -/
theorem src_version_never_regresses (ops : List IngestOp) (st : PlStore)
    (k : String × ℤ) (v : ℤ) (hv : plSrcVersion st k = some v)
    (hlive : ∀ s ∈ ingestStates ops st, (plLookup s k).isSome) :
    plSrcVersion (applyIngestOps ops st) k = some v := by
  induction ops generalizing st with
  | nil => exact hv
  | cons op rest ih =>
    have hstep := applyIngestOp_src_version op st k v hv
    rcases hstep with hgone | hkeep
    · exfalso
      have : (plLookup (applyIngestOp st op) k).isSome := by
        apply hlive
        rcases rest with _ | ⟨op2, rest2⟩
        · simp [ingestStates, applyIngestOps]
        · right
          simp only [ingestStates]
          exact List.mem_cons_self _ _
      rw [hgone] at this
      exact Bool.noConfusion this
    · have hlive2 : ∀ s ∈ ingestStates rest (applyIngestOp st op),
          (plLookup s k).isSome := by
        intro s hs
        apply hlive
        rcases rest with _ | ⟨op2, rest2⟩
        · simp [ingestStates] at hs
          subst hs
          simp [ingestStates]
        · simp [ingestStates] at hs ⊢
          tauto
      exact ih (applyIngestOp st op) hkeep hlive2

/-- C7 witness: a concrete run — upsert of playlist ("nixplay", 5) whose
stored `src_version` is 7, a `last_imported` touch, and a
missing-`src_version` update attempt — leaves `src_version = 7`. -/
theorem src_version_never_regresses_witness :
    plSrcVersion
        [(("nixplay", (5 : ℤ)),
          (⟨"Frame", 12, "2024-01-01", "2024-01-02", some 7⟩ : PlRec))]
        ("nixplay", 5) = some 7 ∧
    (∀ s ∈ ingestStates
        [IngestOp.upsert "nixplay" 5 "Frame2" 13 "2024-02-01",
         IngestOp.touchImported "nixplay" 5 "2024-02-02",
         IngestOp.setVersionIfMissing "nixplay" 5 3]
        [(("nixplay", (5 : ℤ)),
          (⟨"Frame", 12, "2024-01-01", "2024-01-02", some 7⟩ : PlRec))],
      (plLookup s ("nixplay", 5)).isSome) ∧
    plSrcVersion
      (applyIngestOps
        [IngestOp.upsert "nixplay" 5 "Frame2" 13 "2024-02-01",
         IngestOp.touchImported "nixplay" 5 "2024-02-02",
         IngestOp.setVersionIfMissing "nixplay" 5 3]
        [(("nixplay", (5 : ℤ)),
          (⟨"Frame", 12, "2024-01-01", "2024-01-02", some 7⟩ : PlRec))])
      ("nixplay", 5) = some 7 := by
  refine ⟨by decide, by decide, ?_⟩
  exact src_version_never_regresses _ _ _ 7 (by decide) (by decide)

/-- Helper: one `INSERT OR IGNORE` leaves exactly one row with the inserted
row's key, provided the uniqueness invariant (at most one row per key) held
before. -/
theorem insertFileIgnore_count_one (files : List FileRow) (row : FileRow)
    (hinv : countFileKey files row.folder row.basename row.extension ≤ 1) :
    countFileKey (insertFileIgnore files row)
      row.folder row.basename row.extension = 1 := by
  unfold insertFileIgnore
  by_cases hhas : hasFileKey files row.folder row.basename row.extension = true
  · rw [if_pos hhas]
    have hpos : 0 < countFileKey files row.folder row.basename row.extension := by
      unfold hasFileKey at hhas
      rw [List.any_eq_true] at hhas
      obtain ⟨x, hx, hpx⟩ := hhas
      exact List.length_pos_of_mem (List.mem_filter.mpr ⟨hx, hpx⟩)
    omega
  · rw [if_neg hhas]
    have hzero : countFileKey files row.folder row.basename row.extension = 0 := by
      unfold countFileKey
      rw [List.length_eq_zero, List.filter_eq_nil_iff]
      intro a ha hpa
      exact hhas (by unfold hasFileKey; rw [List.any_eq_true]; exact ⟨a, ha, hpa⟩)
    unfold countFileKey at hzero ⊢
    rw [List.filter_append, List.length_append, hzero]
    simp

/-- C8: inserting the same `(folder, basename, extension)` file twice —
sequentially through `__insert_file` or through the `__insert_files_batch`
path — leaves exactly one `file` row for that triple, given the uniqueness
invariant (at most one row per triple) beforehand: `INSERT OR IGNORE` on
the unique key is idempotent. -/
theorem insert_file_twice_unique (st : CatalogState) (r1 r2 : FileRow)
    (hf : r2.folder = r1.folder) (hb : r2.basename = r1.basename)
    (he : r2.extension = r1.extension)
    (hinv : countFileKey st.files r1.folder r1.basename r1.extension ≤ 1)
    (fn1 fn2 : String) (m1 m2 : List (String × String)) :
    countFileKey (insert_file (insert_file st r1 none fn1 m1) r2 none fn2
        m2).files r1.folder r1.basename r1.extension = 1 ∧
    countFileKey (insert_files_batch st [r1, r2]).files
      r1.folder r1.basename r1.extension = 1 := by
  have key : ∀ files : List FileRow,
      countFileKey files r1.folder r1.basename r1.extension ≤ 1 →
      countFileKey (insertFileIgnore (insertFileIgnore files r1) r2)
        r1.folder r1.basename r1.extension = 1 := by
    intro files hle
    have h1 := insertFileIgnore_count_one files r1 hle
    have h2 := insertFileIgnore_count_one (insertFileIgnore files r1) r2
      (by rw [hf, hb, he, h1])
    rw [hf, hb, he] at h2
    exact h2
  constructor
  · exact key st.files hinv
  · exact key st.files hinv

/-- C8 witness: inserting the file `Pictures/Landscape/img.jpg` twice into
an empty catalog (once per path) leaves a single row for the triple. -/
theorem insert_file_twice_unique_witness :
    countFileKey
        (insert_file
          (insert_file ⟨[], [], []⟩
            ⟨"Pictures/Landscape", some "nixplay", some "12", "img", "jpg",
              some 100, some 50, 5⟩ none "img.jpg" [])
          ⟨"Pictures/Landscape", some "nixplay", some "12", "img", "jpg",
            some 200, some 100, 9⟩ none "img.jpg" []).files
        "Pictures/Landscape" "img" "jpg" = 1 ∧
    countFileKey
      (insert_files_batch ⟨[], [], []⟩
        [⟨"Pictures/Landscape", some "nixplay", some "12", "img", "jpg",
            some 100, some 50, 5⟩,
         ⟨"Pictures/Landscape", some "nixplay", some "12", "img", "jpg",
            some 200, some 100, 9⟩]).files
      "Pictures/Landscape" "img" "jpg" = 1 :=
  insert_file_twice_unique ⟨[], [], []⟩
    ⟨"Pictures/Landscape", some "nixplay", some "12", "img", "jpg",
      some 100, some 50, 5⟩
    ⟨"Pictures/Landscape", some "nixplay", some "12", "img", "jpg",
      some 200, some 100, 9⟩
    rfl rfl rfl (by decide) "img.jpg" "img.jpg" [] []

/-- Helper: `split_ids` allocates exactly `count` sizes. -/
theorem splitIdsGo_length (minSet : ℤ) :
    ∀ (rem : ℤ) (n : ℕ), (splitIdsGo minSet rem n).length = n
  | _, 0 => rfl
  | rem, n + 1 => by
    simp only [splitIdsGo, List.length_cons, splitIdsGo_length minSet _ n]

/-- Helper: every allocated size is at least `min_set_size` (the sizes are
`max(min_set_size, ...)`). -/
theorem splitIdsGo_min_le (minSet : ℤ) :
    ∀ (rem : ℤ) (n : ℕ) (s : ℤ), s ∈ splitIdsGo minSet rem n → minSet ≤ s
  | _, 0, s, h => absurd h (List.not_mem_nil s)
  | rem, n + 1, s, h => by
    simp only [splitIdsGo, List.mem_cons] at h
    rcases h with h | h
    · rw [h]; exact le_max_left _ _
    · exact splitIdsGo_min_le minSet _ n s h

/-- Helper: a Python slice only contains elements of the sliced list. -/
theorem mem_of_mem_pySlice {α : Type} {x : α} {xs : List α} {a b : ℤ}
    (h : x ∈ pySlice xs a b) : x ∈ xs := by
  unfold pySlice at h
  exact List.mem_of_mem_drop (List.mem_of_mem_take h)

/-- Helper: full characterisation of the group-building loop.  When the
number of remaining iterations equals the number of allocated sizes and the
minority allocation never exceeds half the remaining iterations (rounded
against the parity of the index), the loop succeeds, produces one group per
iteration, draws every group's ids from the dominant or minority id list,
and emits a minority group exactly at the odd offsets `k < 2 * |mS|`. -/
theorem buildLoop_spec (dT mT : String) (dIds mIds : List ℤ) :
    ∀ (n i : ℕ) (dS mS : List ℤ) (dIdx mIdx : ℤ),
      dS.length + mS.length = n →
      (i % 2 = 0 → 2 * mS.length ≤ n) →
      (i % 2 = 1 → 2 * mS.length ≤ n + 1) →
      ∃ gs, buildLoop dT mT dIds mIds i n dS mS dIdx mIdx = some gs ∧
        gs.length = n ∧
        (∀ g ∈ gs, ∀ x ∈ g.2, x ∈ dIds ∨ x ∈ mIds) ∧
        ∀ (k : ℕ) (hk : k < gs.length),
          (gs.get ⟨k, hk⟩).1 =
            if (i + k) % 2 = 1 ∧ k < 2 * mS.length then mT else dT := by
  intro n
  induction n with
  | zero =>
    intro i dS mS dIdx mIdx hlen heven hodd
    refine ⟨[], rfl, rfl, by simp, ?_⟩
    intro k hk
    simp at hk
  | succ n ih =>
    intro i dS mS dIdx mIdx hlen heven hodd
    by_cases hc : i % 2 = 0 ∨ mS = []
    · have hdS : dS ≠ [] := by
        intro hnil
        subst hnil
        simp only [List.length_nil, Nat.zero_add] at hlen
        rcases hc with hc | hc
        · have h2 := heven hc
          omega
        · subst hc
          simp at hlen
      cases dS with
      | nil => exact absurd rfl hdS
      | cons s ds =>
        have hlen2 : ds.length + mS.length = n := by
          simp only [List.length_cons] at hlen
          omega
        have heven2 : (i + 1) % 2 = 0 → 2 * mS.length ≤ n := by
          intro h2
          rcases hc with hc | hc
          · omega
          · subst hc
            simp
        have hodd2 : (i + 1) % 2 = 1 → 2 * mS.length ≤ n + 1 := by
          intro h2
          have hie : i % 2 = 0 := by omega
          have := heven hie
          omega
        obtain ⟨gs, hgs, hglen, hgmem, hgor⟩ :=
          ih (i + 1) ds mS (dIdx + s) mIdx hlen2 heven2 hodd2
        refine ⟨(dT, pySlice dIds dIdx (dIdx + s)) :: gs, ?_, ?_, ?_, ?_⟩
        · simp only [buildLoop, if_pos hc, hgs, Option.map_some']
        · simp [hglen]
        · intro g hg x hx
          rcases List.mem_cons.mp hg with hg | hg
          · subst hg
            exact Or.inl (mem_of_mem_pySlice hx)
          · exact hgmem g hg x hx
        · intro k hk
          cases k with
          | zero =>
            have hcond : ¬ ((i + 0) % 2 = 1 ∧ 0 < 2 * mS.length) := by
              rintro ⟨hp1, hp2⟩
              rcases hc with hc | hc
              · omega
              · subst hc
                simp at hp2
            rw [if_neg hcond]
            rfl
          | succ k2 =>
            have hk2 : k2 < gs.length := by
              simp only [List.length_cons] at hk
              omega
            have hrec := hgor k2 hk2
            rw [List.get_cons_succ, hrec]
            apply if_congr _ rfl rfl
            constructor
            · rintro ⟨hp1, hp2⟩
              refine ⟨by omega, ?_⟩
              rcases hc with hc | hc
              · omega
              · subst hc
                simp at hp2
            · rintro ⟨hp1, hp2⟩
              refine ⟨by omega, ?_⟩
              rcases hc with hc | hc
              · omega
              · subst hc
                simp at hp2
    · push_neg at hc
      obtain ⟨hio, hmne⟩ := hc
      have hiodd : i % 2 = 1 := by omega
      cases mS with
      | nil => exact absurd rfl hmne
      | cons s ms =>
        have hlen2 : dS.length + ms.length = n := by
          simp only [List.length_cons] at hlen
          omega
        have heven2 : (i + 1) % 2 = 0 → 2 * ms.length ≤ n := by
          intro _
          have := hodd hiodd
          simp only [List.length_cons] at this
          omega
        have hodd2 : (i + 1) % 2 = 1 → 2 * ms.length ≤ n + 1 := by
          intro h2
          omega
        obtain ⟨gs, hgs, hglen, hgmem, hgor⟩ :=
          ih (i + 1) dS ms dIdx (mIdx + s) hlen2 heven2 hodd2
        have hcond : ¬ (i % 2 = 0 ∨ (s :: ms : List ℤ) = []) := by
          rintro (h | h)
          · omega
          · exact List.noConfusion h
        refine ⟨(mT, pySlice mIds mIdx (mIdx + s)) :: gs, ?_, ?_, ?_, ?_⟩
        · simp only [buildLoop, if_neg hcond, hgs, Option.map_some']
        · simp [hglen]
        · intro g hg x hx
          rcases List.mem_cons.mp hg with hg | hg
          · subst hg
            exact Or.inr (mem_of_mem_pySlice hx)
          · exact hgmem g hg x hx
        · intro k hk
          cases k with
          | zero =>
            have hcond0 : (i + 0) % 2 = 1 ∧ 0 < 2 * (s :: ms : List ℤ).length := by
              constructor
              · simpa using hiodd
              · simp
            rw [if_pos hcond0]
            rfl
          | succ k2 =>
            have hk2 : k2 < gs.length := by
              simp only [List.length_cons] at hk
              omega
            have hrec := hgor k2 hk2
            rw [List.get_cons_succ, hrec]
            apply if_congr _ rfl rfl
            simp only [List.length_cons]
            constructor
            · rintro ⟨hp1, hp2⟩
              exact ⟨by omega, by omega⟩
            · rintro ⟨hp1, hp2⟩
              exact ⟨by omega, by omega⟩

/-- Helper: after the minimum-size guard, twice the minority group count
never exceeds the total group count. -/
theorem minorityGroups_le (targetSet minSet : ℕ) (ids : List ℤ)
    (fm : ℤ → ℤ) :
    2 * minorityGroups targetSet minSet ids fm ≤
      numGroups ids.length targetSet := by
  unfold minorityGroups
  dsimp only
  split
  · rename_i hguard
    have hm : 0 < minSet := by
      rcases Nat.eq_zero_or_pos minSet with h0 | h0
      · rw [h0, Nat.mul_zero] at hguard
        omega
      · exact h0
    have hlt : (minorityIds ids fm).length / minSet <
        numGroups ids.length targetSet / 2 := by
      rw [Nat.div_lt_iff_lt_mul hm]
      exact hguard
    omega
  · omega

/-- Helper: the two allocated size lists together cover exactly
`num_groups` groups. -/
theorem sizes_length_sum (targetSet minSet : ℕ) (ids : List ℤ)
    (fm : ℤ → ℤ) :
    (split_ids (minSet : ℤ) (dominantIds ids fm)
        (dominantGroups targetSet minSet ids fm)).length +
      (split_ids (minSet : ℤ) (minorityIds ids fm)
        (minorityGroups targetSet minSet ids fm)).length =
      numGroups ids.length targetSet := by
  unfold split_ids
  rw [splitIdsGo_length, splitIdsGo_length]
  have := minorityGroups_le targetSet minSet ids fm
  unfold dominantGroups
  omega

/-- C5 counterexample: 5 portrait and 5 landscape files with target group
size 3 and minimum group size 3.  The loop emits a portrait group of size 2
and an empty portrait group — the allocated sizes oversubscribe the five
portrait ids, so the actual group sizes fall below the configured minimum,
refuting "all groups have size ≥ the configured minimum". -/
theorem build_groups_min_size_cex :
    build_groups_dynamic 3 3 [1, 2, 3, 4, 5, 6, 7, 8, 9, 10]
        (fun fid => if fid ≤ 5 then 2 else 1) =
      some [("portrait", [1, 2, 3]), ("landscape", [6, 7, 8, 9, 10]),
        ("portrait", [4, 5]), ("portrait", [])] ∧
    ¬ (∀ g ∈ [("portrait", ([1, 2, 3] : List ℤ)),
        ("landscape", ([6, 7, 8, 9, 10] : List ℤ)),
        ("portrait", ([4, 5] : List ℤ)), ("portrait", ([] : List ℤ))],
        3 ≤ g.2.length) := by
  constructor
  · decide
  · intro h
    have := h ("portrait", ([] : List ℤ)) (by simp)
    simp at this

/-- C5 (amended): for every input and configuration with a positive target
group size, `build_groups_dynamic` succeeds and (a) every *allocated* group
size in both `split_ids` lists is at least the configured minimum, and (b)
group `k` has the minority orientation exactly when `k` is odd and
`k < 2 * minority_groups` — i.e. the orientation alternates, with a
dominant group whenever the index is even or the minority allocation is
exhausted.  The *actual* group contents may still be shorter than the
minimum (see the counterexample): only the allocated sizes respect it. -/
theorem build_groups_allocated_min_and_alternation (targetSet minSet : ℕ)
    (ids : List ℤ) (fm : ℤ → ℤ) (ht : 0 < targetSet) :
    ∃ gs, build_groups_dynamic targetSet minSet ids fm = some gs ∧
      gs.length = numGroups ids.length targetSet ∧
      (∀ s ∈ split_ids (minSet : ℤ) (dominantIds ids fm)
          (dominantGroups targetSet minSet ids fm), (minSet : ℤ) ≤ s) ∧
      (∀ s ∈ split_ids (minSet : ℤ) (minorityIds ids fm)
          (minorityGroups targetSet minSet ids fm), (minSet : ℤ) ≤ s) ∧
      ∀ (k : ℕ) (hk : k < gs.length),
        (gs.get ⟨k, hk⟩).1 =
          if k % 2 = 1 ∧ k < 2 * minorityGroups targetSet minSet ids fm
          then minorityType ids fm else dominantType ids fm := by
  have hmg2 := minorityGroups_le targetSet minSet ids fm
  have hsum := sizes_length_sum targetSet minSet ids fm
  have hmlen : (split_ids (minSet : ℤ) (minorityIds ids fm)
      (minorityGroups targetSet minSet ids fm)).length =
      minorityGroups targetSet minSet ids fm := by
    unfold split_ids
    rw [splitIdsGo_length]
  obtain ⟨gs, hgs, hglen, _, hgor⟩ :=
    buildLoop_spec (dominantType ids fm) (minorityType ids fm)
      (dominantIds ids fm) (minorityIds ids fm)
      (numGroups ids.length targetSet) 0
      (split_ids (minSet : ℤ) (dominantIds ids fm)
        (dominantGroups targetSet minSet ids fm))
      (split_ids (minSet : ℤ) (minorityIds ids fm)
        (minorityGroups targetSet minSet ids fm))
      0 0 hsum (fun _ => by rw [hmlen]; exact hmg2) (fun hp => by omega)
  refine ⟨gs, ?_, hglen, ?_, ?_, ?_⟩
  · unfold build_groups_dynamic
    rw [if_neg (by omega)]
    exact hgs
  · intro s hs
    exact splitIdsGo_min_le _ _ _ s hs
  · intro s hs
    exact splitIdsGo_min_le _ _ _ s hs
  · intro k hk
    rw [hgor k hk]
    apply if_congr _ rfl rfl
    rw [hmlen]
    constructor
    · rintro ⟨hp1, hp2⟩
      exact ⟨by omega, hp2⟩
    · rintro ⟨hp1, hp2⟩
      exact ⟨by omega, hp2⟩

/-- C5 witness: the counterexample configuration (target 3, minimum 3, five
portrait and five landscape files) instantiates the amended theorem. -/
theorem build_groups_allocated_min_witness :
    0 < 3 ∧
    (∃ gs, build_groups_dynamic 3 3 [1, 2, 3, 4, 5, 6, 7, 8, 9, 10]
        (fun fid => if fid ≤ 5 then 2 else 1) = some gs ∧
      gs.length = numGroups
        ([1, 2, 3, 4, 5, 6, 7, 8, 9, 10] : List ℤ).length 3 ∧
      (∀ s ∈ split_ids ((3 : ℕ) : ℤ)
          (dominantIds [1, 2, 3, 4, 5, 6, 7, 8, 9, 10]
            (fun fid => if fid ≤ 5 then 2 else 1))
          (dominantGroups 3 3 [1, 2, 3, 4, 5, 6, 7, 8, 9, 10]
            (fun fid => if fid ≤ 5 then 2 else 1)), ((3 : ℕ) : ℤ) ≤ s) ∧
      (∀ s ∈ split_ids ((3 : ℕ) : ℤ)
          (minorityIds [1, 2, 3, 4, 5, 6, 7, 8, 9, 10]
            (fun fid => if fid ≤ 5 then 2 else 1))
          (minorityGroups 3 3 [1, 2, 3, 4, 5, 6, 7, 8, 9, 10]
            (fun fid => if fid ≤ 5 then 2 else 1)), ((3 : ℕ) : ℤ) ≤ s) ∧
      ∀ (k : ℕ) (hk : k < gs.length),
        (gs.get ⟨k, hk⟩).1 =
          if k % 2 = 1 ∧ k < 2 * minorityGroups 3 3
              [1, 2, 3, 4, 5, 6, 7, 8, 9, 10]
              (fun fid => if fid ≤ 5 then 2 else 1)
          then minorityType [1, 2, 3, 4, 5, 6, 7, 8, 9, 10]
            (fun fid => if fid ≤ 5 then 2 else 1)
          else dominantType [1, 2, 3, 4, 5, 6, 7, 8, 9, 10]
            (fun fid => if fid ≤ 5 then 2 else 1)) :=
  ⟨by decide,
   build_groups_allocated_min_and_alternation 3 3
     [1, 2, 3, 4, 5, 6, 7, 8, 9, 10]
     (fun fid => if fid ≤ 5 then 2 else 1) (by decide)⟩

/-- C10: a file id whose folder id is neither 1 (Landscape) nor 2
(Portrait) — e.g. a file in the Square folder — appears in no output group
of `build_groups_dynamic`, while the group count is still computed from the
length of the *full* input list (which counts that id); hence the emitted
groups do not partition the input whenever such ids exist. -/
theorem build_groups_drops_unclassified (targetSet minSet : ℕ)
    (ids : List ℤ) (fm : ℤ → ℤ) (fid : ℤ) (ht : 0 < targetSet)
    (_hmem : fid ∈ ids) (h1 : ¬ fm fid = 1) (h2 : ¬ fm fid = 2) :
    ∃ gs, build_groups_dynamic targetSet minSet ids fm = some gs ∧
      gs.length = numGroups ids.length targetSet ∧
      ∀ g ∈ gs, fid ∉ g.2 := by
  have hmg2 := minorityGroups_le targetSet minSet ids fm
  have hsum := sizes_length_sum targetSet minSet ids fm
  have hmlen : (split_ids (minSet : ℤ) (minorityIds ids fm)
      (minorityGroups targetSet minSet ids fm)).length =
      minorityGroups targetSet minSet ids fm := by
    unfold split_ids
    rw [splitIdsGo_length]
  obtain ⟨gs, hgs, hglen, hgmem, _⟩ :=
    buildLoop_spec (dominantType ids fm) (minorityType ids fm)
      (dominantIds ids fm) (minorityIds ids fm)
      (numGroups ids.length targetSet) 0
      (split_ids (minSet : ℤ) (dominantIds ids fm)
        (dominantGroups targetSet minSet ids fm))
      (split_ids (minSet : ℤ) (minorityIds ids fm)
        (minorityGroups targetSet minSet ids fm))
      0 0 hsum (fun _ => by rw [hmlen]; exact hmg2) (fun hp => by omega)
  have hport : fid ∉ portraitIds ids fm := by
    intro hx
    have := (List.mem_filter.mp hx).2
    simp at this
    exact h2 this
  have hland : fid ∉ landscapeIds ids fm := by
    intro hx
    have := (List.mem_filter.mp hx).2
    simp at this
    exact h1 this
  have hdom : fid ∉ dominantIds ids fm := by
    unfold dominantIds
    split
    · exact hport
    · exact hland
  have hmin : fid ∉ minorityIds ids fm := by
    unfold minorityIds
    split
    · exact hland
    · exact hport
  refine ⟨gs, ?_, hglen, ?_⟩
  · unfold build_groups_dynamic
    rw [if_neg (by omega)]
    exact hgs
  · intro g hg hx
    rcases hgmem g hg fid hx with hfd | hfm
    · exact hdom hfd
    · exact hmin hfm

/-- C10 witness: file 3 sits in folder 3 (Square) among files 1 (Landscape)
and 2 (Portrait); with target size 10 it lands in no group although the
single group stems from a total of 3 files. -/
theorem build_groups_drops_unclassified_witness :
    0 < 10 ∧ (3 : ℤ) ∈ ([1, 2, 3] : List ℤ) ∧
    ¬ (fun fid => if fid = 1 then (1 : ℤ) else if fid = 2 then 2 else 3)
        (3 : ℤ) = 1 ∧
    ¬ (fun fid => if fid = 1 then (1 : ℤ) else if fid = 2 then 2 else 3)
        (3 : ℤ) = 2 ∧
    (∃ gs, build_groups_dynamic 10 3 [1, 2, 3]
        (fun fid => if fid = 1 then (1 : ℤ) else if fid = 2 then 2 else 3) =
          some gs ∧
      gs.length = numGroups ([1, 2, 3] : List ℤ).length 10 ∧
      ∀ g ∈ gs, (3 : ℤ) ∉ g.2) :=
  ⟨by decide, by decide, by decide, by decide,
   build_groups_drops_unclassified 10 3 [1, 2, 3]
     (fun fid => if fid = 1 then (1 : ℤ) else if fid = 2 then 2 else 3) 3
     (by decide) (by decide) (by decide) (by decide)⟩

end PFAspect
